import Mathlib

/-!
Formal model of the process supervisor in
`src/jake_bot/process_manager/supervisor.py`.

Process output text is modelled as `List Char` (Python `str`), timestamps as
naturals, and the Python `dict` registry as an association list with dict
semantics (assignment replaces in place, `del` removes the entry).  The
operating-system effects consulted by `start` / `stop` (`os.getcwd`,
`os.path.isdir`, `os.environ`, `asyncio.create_subprocess_exec`, `os.getpgid`,
`os.killpg`, waiting for exit, and the clock) are supplied by explicit
environment records, so every code path of the Python methods corresponds to a
choice of environment.
-/

namespace JakeBot

/-- `ProcessStatus` enum from the source. -/
inductive ProcessStatus where
  | starting
  | running
  | stopping
  | stopped
  | failed
deriving DecidableEq, Repr

/-- The `.value` of a `ProcessStatus` member (the enum is a `str` enum). -/
def ProcessStatus.value : ProcessStatus → String
  | .starting => "starting"
  | .running => "running"
  | .stopping => "stopping"
  | .stopped => "stopped"
  | .failed => "failed"

/-- `RingBuffer`: fixed-size ring buffer for process output.  `buf` is the
`deque` (oldest chunk first), `total_chars` tracks the summed chunk lengths as
a (possibly negative, as in Python) integer, `seq` is the monotonic append
counter. -/
structure RingBuffer where
  max_size : Nat := 100000
  buf : List (List Char) := []
  total_chars : Int := 0
  seq : Nat := 0
deriving DecidableEq, Repr

/-- Total characters held in a chunk list. -/
def chunksLen (l : List (List Char)) : Nat := (l.map List.length).sum

/-- The eviction loop of `RingBuffer.append`: while the running total exceeds
the budget and the deque is non-empty, pop the oldest chunk and subtract its
length. -/
def evictLoop : List (List Char) → Int → Nat → List (List Char) × Int
  | [], total, _ => ([], total)
  | c :: rest, total, maxSize =>
    if total > (maxSize : Int) then evictLoop rest (total - c.length) maxSize
    else (c :: rest, total)

/-- `RingBuffer.append`: push the chunk, bump the totals and the sequence
counter, then evict oldest chunks until within budget. -/
def RingBuffer.append (rb : RingBuffer) (data : List Char) : RingBuffer :=
  let p := evictLoop (rb.buf ++ [data]) (rb.total_chars + data.length) rb.max_size
  { rb with buf := p.1, total_chars := p.2, seq := rb.seq + 1 }

/-- `RingBuffer.all`: full current contents, oldest to newest. -/
def RingBuffer.all (rb : RingBuffer) : List Char := rb.buf.flatten

/-- The last `n` elements of a list (Python `l[-n:]` for `0 < n`, and the
"last `min n length` characters" of a string). -/
def lastN {α : Type} (l : List α) (n : Nat) : List α := l.drop (l.length - n)

/-- The part-collecting loop of `RingBuffer.tail`, walking the reversed deque
(newest chunk first) with the remaining character count: whole chunks are
taken while they fit, the first chunk that does not fit is sliced to its last
`remaining` characters and the walk stops. -/
def tailParts : List (List Char) → Nat → List (List Char)
  | [], _ => []
  | c :: rest, remaining =>
    if remaining = 0 then []
    else if c.length ≤ remaining then c :: tailParts rest (remaining - c.length)
    else [lastN c remaining]

/-- `RingBuffer.tail`: last `numChars` characters of the buffered output.  The
collected parts are in newest-to-oldest order and are reversed before being
joined, as in the source. -/
def RingBuffer.tail (rb : RingBuffer) (numChars : Nat) : List Char :=
  ((tailParts rb.buf.reverse numChars).reverse).flatten

/-- Well-formedness of a `RingBuffer`: the cached `total_chars` equals the
summed chunk lengths.  This holds for every buffer reachable from the
constructor by `append` calls. -/
def RingBuffer.wf (rb : RingBuffer) : Prop :=
  rb.total_chars = (chunksLen rb.buf : Int)

instance (rb : RingBuffer) : Decidable rb.wf :=
  inferInstanceAs (Decidable (rb.total_chars = (chunksLen rb.buf : Int)))

/-- A freshly constructed `RingBuffer(max_size := m)`. -/
def freshBuffer (m : Nat) : RingBuffer := { max_size := m }

theorem chunksLen_cons (c : List Char) (l : List (List Char)) :
    chunksLen (c :: l) = c.length + chunksLen l := by
  simp [chunksLen]

theorem chunksLen_append (l₁ l₂ : List (List Char)) :
    chunksLen (l₁ ++ l₂) = chunksLen l₁ + chunksLen l₂ := by
  simp [chunksLen]

theorem evictLoop_sum (l : List (List Char)) (total : Int) (m : Nat)
    (h : total = (chunksLen l : Int)) :
    (evictLoop l total m).2 = (chunksLen (evictLoop l total m).1 : Int) := by
  induction l generalizing total with
  | nil => simpa [evictLoop] using h
  | cons c rest ih =>
    by_cases hgt : total > (m : Int)
    · rw [evictLoop, if_pos hgt]
      exact ih (total - c.length) (by rw [h, chunksLen_cons]; push_cast; ring)
    · rw [evictLoop, if_neg hgt]
      exact h

theorem evictLoop_le (l : List (List Char)) (total : Int) (m : Nat)
    (h : total = (chunksLen l : Int)) :
    (evictLoop l total m).2 ≤ (m : Int) := by
  induction l generalizing total with
  | nil =>
    simp [evictLoop]
    rw [h]
    simp [chunksLen]
  | cons c rest ih =>
    by_cases hgt : total > (m : Int)
    · rw [evictLoop, if_pos hgt]
      exact ih (total - c.length) (by rw [h, chunksLen_cons]; push_cast; ring)
    · rw [evictLoop, if_neg hgt]
      omega

theorem append_wf (rb : RingBuffer) (d : List Char) (h : rb.wf) :
    (rb.append d).wf := by
  unfold RingBuffer.wf RingBuffer.append
  exact evictLoop_sum _ _ _ (by rw [h, chunksLen_append, chunksLen_cons]; push_cast; simp [chunksLen])

theorem append_max_size (rb : RingBuffer) (d : List Char) :
    (rb.append d).max_size = rb.max_size := rfl

theorem all_length (rb : RingBuffer) : rb.all.length = chunksLen rb.buf := by
  simp [RingBuffer.all, chunksLen]

theorem append_all_length_le (rb : RingBuffer) (d : List Char) (h : rb.wf) :
    (rb.append d).all.length ≤ rb.max_size := by
  have hsum := evictLoop_sum (rb.buf ++ [d]) (rb.total_chars + d.length) rb.max_size
    (by rw [h, chunksLen_append, chunksLen_cons]; push_cast; simp [chunksLen])
  have hle := evictLoop_le (rb.buf ++ [d]) (rb.total_chars + d.length) rb.max_size
    (by rw [h, chunksLen_append, chunksLen_cons]; push_cast; simp [chunksLen])
  rw [all_length]
  have : ((chunksLen (rb.append d).buf : Int)) ≤ (rb.max_size : Int) := by
    rw [RingBuffer.append] at *
    rw [← hsum]
    exact hle
  exact_mod_cast this

theorem freshBuffer_wf (m : Nat) : (freshBuffer m).wf := by
  simp [freshBuffer, RingBuffer.wf, chunksLen]

theorem foldl_append_bound (m : Nat) (chunks : List (List Char)) :
    ∀ rb : RingBuffer, rb.wf → rb.max_size = m → rb.all.length ≤ m →
      (chunks.foldl RingBuffer.append rb).all.length ≤ m := by
  induction chunks with
  | nil => intro rb _ _ hb; simpa using hb
  | cons c rest ih =>
    intro rb hwf hm hb
    refine ih (rb.append c) (append_wf rb c hwf) (by rw [append_max_size, hm]) ?_
    have := append_all_length_le rb c hwf
    omega

theorem mem_length_le_chunksLen (c : List Char) (l : List (List Char))
    (h : c ∈ l) : c.length ≤ chunksLen l :=
  List.single_le_sum (fun x _ => Nat.zero_le x) c.length (List.mem_map_of_mem List.length h)

theorem evictLoop_last_big (l : List (List Char)) (total : Int) (m : Nat)
    (c : List Char) (hlast : l.getLast? = some c) (hbig : m < c.length)
    (h : total = (chunksLen l : Int)) :
    (evictLoop l total m).1 = [] := by
  induction l generalizing total with
  | nil => simp at hlast
  | cons x xs ih =>
    cases xs with
    | nil =>
      have hx : x = c := by simpa using hlast
      subst hx
      have hcl : chunksLen [x] = x.length := by simp [chunksLen]
      have hgt : total > (m : Int) := by
        rw [h, hcl]; exact_mod_cast hbig
      rw [evictLoop, if_pos hgt]
      rfl
    | cons y ys =>
      have hlast2 : (y :: ys).getLast? = some c := by
        rw [List.getLast?_cons_cons] at hlast
        exact hlast
      have hmem : c ∈ y :: ys := by
        obtain ⟨hne, hc⟩ := List.mem_getLast?_eq_getLast (Option.mem_def.mpr hlast2)
        exact hc ▸ List.getLast_mem hne
      have htail : (c.length : Nat) ≤ chunksLen (y :: ys) :=
        mem_length_le_chunksLen c (y :: ys) hmem
      have hgt : total > (m : Int) := by
        rw [h, chunksLen_cons]
        have : (m : Nat) < chunksLen (y :: ys) := lt_of_lt_of_le hbig htail
        push_cast
        omega
      rw [evictLoop, if_pos hgt]
      exact ih (total - (x.length : Int)) hlast2
        (by rw [h, chunksLen_cons]; push_cast; ring)

theorem lastN_zero {α : Type} (l : List α) : lastN l 0 = [] := by
  simp [lastN]

theorem lastN_append_ge (A c : List Char) (n : Nat) (h : c.length ≤ n) :
    lastN (A ++ c) n = lastN A (n - c.length) ++ c := by
  rw [lastN, lastN, List.length_append, List.drop_append_eq_append_drop]
  have h1 : A.length + c.length - n - A.length = 0 := by omega
  have h2 : A.length + c.length - n = A.length - (n - c.length) := by omega
  rw [h1, h2, List.drop_zero]

theorem lastN_append_le (A c : List Char) (n : Nat) (h : n ≤ c.length) :
    lastN (A ++ c) n = lastN c n := by
  rw [lastN, lastN, List.length_append, List.drop_append_eq_append_drop]
  have h1 : A.length ≤ A.length + c.length - n := by omega
  have h2 : A.length + c.length - n - A.length = c.length - n := by omega
  rw [List.drop_eq_nil_of_le h1, h2, List.nil_append]

theorem tailParts_flatten (l : List (List Char)) (n : Nat) :
    ((tailParts l n).reverse).flatten = lastN (l.reverse.flatten) n := by
  induction l generalizing n with
  | nil => simp [tailParts, lastN]
  | cons c rest ih =>
    by_cases h0 : n = 0
    · subst h0
      simp [tailParts, lastN_zero]
    · by_cases hle : c.length ≤ n
      · rw [tailParts, if_neg h0, if_pos hle]
        simp only [List.reverse_cons, List.flatten_append, List.flatten_cons,
          List.flatten_nil, List.append_nil, ih]
        rw [lastN_append_ge _ _ _ hle]
      · rw [tailParts, if_neg h0, if_neg hle]
        simp only [List.reverse_cons, List.flatten_append, List.flatten_cons,
          List.flatten_nil, List.append_nil, List.reverse_nil, List.nil_append]
        rw [lastN_append_le _ _ _ (le_of_not_le hle)]

/-- Claim C2: for every `RingBuffer` budget `max_size` and every finite
sequence of appended chunks, after each append the total length of `all()` is
at most `max_size` — `append` evicts oldest chunks FIFO until the total size
is within budget.  (Arbitrary `chunks` covers every prefix, hence the state
after each individual append.) -/
theorem claim_C2_ring_buffer_bound (m : Nat) (chunks : List (List Char)) :
    (chunks.foldl RingBuffer.append (freshBuffer m)).all.length ≤ m :=
  foldl_append_bound m chunks (freshBuffer m) (freshBuffer_wf m) rfl
    (by simp [freshBuffer, RingBuffer.all])

/-- Claim C3: for every buffer state and every positive `n`, `tail n` equals
the last `min n length` characters of `all()` — chunk boundaries are
invisible and the oldest included chunk is sliced exactly. -/
theorem claim_C3_tail_exact (rb : RingBuffer) (n : Nat) (_hn : 0 < n) :
    rb.tail n = lastN rb.all n := by
  unfold RingBuffer.tail RingBuffer.all
  rw [tailParts_flatten, List.reverse_reverse]

/-- Buffer holding "abc" then "def", as in the spec's tail-exactness example. -/
def rbExample : RingBuffer :=
  ((freshBuffer 100000).append ("abc".toList)).append ("def".toList)

/-- Witness for C3 at the spec's example: `tail 4` of "abc"+"def" is "cdef". -/
theorem claim_C3_tail_exact_witness :
    (0 < 4 ∧ rbExample.tail 4 = lastN rbExample.all 4) ∧
    rbExample.tail 4 = "cdef".toList :=
  ⟨⟨by decide, claim_C3_tail_exact rbExample 4 (by decide)⟩, by decide⟩

/-- Claim C9: appending a single chunk longer than the budget evicts every
chunk including the new one — immediately afterwards `all()` is empty; the
oversized data is lost entirely, not truncated. -/
theorem claim_C9_oversized_append_empties (rb : RingBuffer) (d : List Char)
    (hwf : rb.wf) (hbig : rb.max_size < d.length) :
    (rb.append d).all = [] := by
  have h := evictLoop_last_big (rb.buf ++ [d]) (rb.total_chars + d.length)
    rb.max_size d (by simp) hbig
    (by rw [hwf, chunksLen_append, chunksLen_cons]; push_cast; simp [chunksLen])
  unfold RingBuffer.all RingBuffer.append
  simp [h]

/-- Witness for C9: a budget-3 buffer receiving a 4-character chunk ends up
empty. -/
theorem claim_C9_oversized_append_empties_witness :
    (freshBuffer 3).wf ∧ (freshBuffer 3).max_size < ("abcd".toList).length ∧
    ((freshBuffer 3).append ("abcd".toList)).all = [] :=
  ⟨by decide, by decide,
    claim_C9_oversized_append_empties (freshBuffer 3) ("abcd".toList)
      (by decide) (by decide)⟩

/-- `ManagedProcess`: state for a single managed process.  The private
`asyncio` process handle is modelled by its pid (`process`); its dynamic
attributes (`returncode`, `wait`) are supplied by the environment records of
the operations that consult them.  Reader-task handles carry no observable
state and are omitted. -/
structure ManagedProcess where
  name : String
  command : String
  args : List String
  cwd : String
  env : Option (List (String × String))
  status : ProcessStatus := .starting
  pid : Option Nat := none
  exit_code : Option Int := none
  start_time : Nat
  stop_time : Option Nat := none
  stdout_buf : RingBuffer := {}
  stderr_buf : RingBuffer := {}
  process : Option Nat := none
deriving DecidableEq, Repr

/-- Association-list lookup with Python `dict` key semantics. -/
def alistLookup {β : Type} : List (String × β) → String → Option β
  | [], _ => none
  | (k, v) :: rest, n => if k = n then some v else alistLookup rest n

/-- Association-list assignment: replace the value in place if the key is
present, else append (Python `d[k] = v`). -/
def alistInsert {β : Type} : List (String × β) → String → β → List (String × β)
  | [], n, m => [(n, m)]
  | (k, v) :: rest, n, m =>
    if k = n then (n, m) :: rest else (k, v) :: alistInsert rest n m

/-- Association-list deletion (Python `del d[k]`). -/
def alistErase {β : Type} : List (String × β) → String → List (String × β)
  | [], _ => []
  | (k, v) :: rest, n => if k = n then rest else (k, v) :: alistErase rest n

/-- The supervisor registry `self._processes`. -/
abbrev Registry := List (String × ManagedProcess)

/-- Environment consulted by one `start` call: `os.getcwd()`,
`os.path.isdir`, `os.environ`, the clock, and the outcome of the single
`asyncio.create_subprocess_exec` attempt (pid on success, exception text on
failure), as a function of the merged child environment. -/
structure StartEnv where
  getcwd : String
  isdir : String → Bool
  environ : List (String × String)
  now : Nat
  spawn : List (String × String) → Except (List Char) Nat

deriving instance DecidableEq for Except

/-- Exceptions `start` can raise. -/
inductive StartErr where
  | valueError (msg : List Char)
  | spawnFailed (msg : List Char)
deriving DecidableEq

/-- Result of a `start` call: the returned record or raised exception, the
registry at return/raise time, and whether `create_subprocess_exec` was
invoked. -/
structure StartResult where
  result : Except StartErr ManagedProcess
  registry : Registry
  spawnCalled : Bool
deriving DecidableEq

/-- `cwd or os.getcwd()` — Python `or` also replaces the empty string. -/
def resolveCwd (env : StartEnv) (cwd : Option String) : String :=
  match cwd with
  | none => env.getcwd
  | some s => if s = "" then env.getcwd else s

/-- `spawn_env = os.environ.copy(); if env: spawn_env.update(env)` —
caller-supplied keys win. -/
def mergeEnv (base : List (String × String)) (ov : Option (List (String × String))) :
    List (String × String) :=
  match ov with
  | none => base
  | some l => l.foldl (fun acc kv => alistInsert acc kv.1 kv.2) base

/-- The portion of `ProcessSupervisor.start` after the live-record check:
resolve and validate the working directory, insert the fresh `STARTING`
record, then attempt the spawn. -/
def startSpawn (reg0 : Registry) (env : StartEnv) (name command : String)
    (args : Option (List String)) (cwd : Option String)
    (envArg : Option (List (String × String))) : StartResult :=
  let resolved_cwd := resolveCwd env cwd
  if ¬ env.isdir resolved_cwd then
    { result := .error (.valueError
        (("Working directory does not exist: " ++ resolved_cwd).toList)),
      registry := reg0, spawnCalled := false }
  else
    let proc_args := match args with
      | none => []
      | some l => l
    let managed : ManagedProcess :=
      { name := name, command := command, args := proc_args,
        cwd := resolved_cwd, env := envArg, start_time := env.now }
    let reg1 := alistInsert reg0 name managed
    match env.spawn (mergeEnv env.environ envArg) with
    | .error exc =>
      let failedRec := { managed with
        status := .failed,
        stderr_buf := managed.stderr_buf.append
          (("Failed to start: ").toList ++ exc ++ ("\n").toList) }
      { result := .error (.spawnFailed exc),
        registry := alistInsert reg1 name failedRec, spawnCalled := true }
    | .ok pid =>
      let runRec := { managed with
        process := some pid, pid := some pid, status := .running }
      { result := .ok runRec,
        registry := alistInsert reg1 name runRec, spawnCalled := true }

/-- `ProcessSupervisor.start`: idempotent on a live record; a dead record
under the same name is deleted before a fresh spawn is attempted. -/
def ProcessSupervisor.start (reg : Registry) (env : StartEnv)
    (name command : String) (args : Option (List String)) (cwd : Option String)
    (envArg : Option (List (String × String))) : StartResult :=
  match alistLookup reg name with
  | some existing =>
    if existing.status = .running ∨ existing.status = .starting then
      { result := .ok existing, registry := reg, spawnCalled := false }
    else startSpawn (alistErase reg name) env name command args cwd envArg
  | none => startSpawn reg env name command args cwd envArg

/-- Signals sent (attempted) to the process group during `stop`. -/
inductive Sig where
  | term
  | kill
deriving DecidableEq, Repr

/-- Environment consulted by one `stop` call: the `os.getpgid` outcome
(`none` models `ProcessLookupError`/`OSError`), whether the first
`os.killpg` succeeds, whether the process exits within the SIGTERM grace
timeout, the `proc.returncode` value read at finalization, and the clock. -/
structure StopEnv where
  pgid : Option Nat
  killpgOk : Bool
  termExits : Bool
  returncode : Option Int
  now : Nat

/-- Result of a `stop` call: returned record or raised `KeyError`, the
registry at return time, and the signals sent to the group, in order. -/
structure StopResult where
  result : Except (List Char) ManagedProcess
  registry : Registry
  signals : List Sig
deriving DecidableEq

/-- `ProcessSupervisor.stop`: SIGTERM (or SIGKILL when `force`), bounded
wait, SIGKILL escalation on timeout; every early-exit path sets `STOPPED`
without touching `exit_code`/`stop_time`, the full path records
`proc.returncode` and the stop time. -/
def ProcessSupervisor.stop (reg : Registry) (env : StopEnv) (name : String)
    (force : Bool) : StopResult :=
  match alistLookup reg name with
  | none =>
    { result := .error (("No process named ").toList ++ name.toList),
      registry := reg, signals := [] }
  | some managed =>
    if ¬ (managed.status = .running ∨ managed.status = .starting) then
      { result := .ok managed, registry := reg, signals := [] }
    else
      match managed.process with
      | none =>
        let m2 := { managed with status := .stopped }
        { result := .ok m2, registry := alistInsert reg name m2, signals := [] }
      | some _pid =>
        let m1 := { managed with status := .stopping }
        match env.pgid with
        | none =>
          let m2 := { m1 with status := .stopped }
          { result := .ok m2, registry := alistInsert reg name m2,
            signals := [] }
        | some _pgid =>
          let sig := if force then Sig.kill else Sig.term
          if ¬ env.killpgOk then
            let m2 := { m1 with status := .stopped }
            { result := .ok m2, registry := alistInsert reg name m2,
              signals := [sig] }
          else
            let signals :=
              if force then [Sig.kill]
              else if env.termExits then [Sig.term]
              else [Sig.term, Sig.kill]
            let m2 :=
              { m1 with
                status := .stopped
                exit_code := env.returncode
                stop_time := some env.now }
            { result := .ok m2, registry := alistInsert reg name m2,
              signals := signals }

/-- `ProcessSupervisor._wait_for_exit` after `proc.wait()` returned `code`:
finalize unless an in-flight `stop()` already set `STOPPING`. -/
def waitForExit (managed : ManagedProcess) (code : Int) (now : Nat) :
    ManagedProcess :=
  match managed.process with
  | none => managed
  | some _ =>
    if managed.status = .stopping then managed
    else
      { managed with
        exit_code := some code, stop_time := some now,
        status := if code = 0 then .stopped else .failed }

/-- One row of `ProcessSupervisor.list_all` (Python rounding of uptimes is
immaterial over natural-number timestamps). -/
structure ProcSummary where
  name : String
  command : String
  args : List String
  cwd : String
  pid : Option Nat
  status : String
  exit_code : Option Int
  start_time : Nat
  uptime_seconds : Option Nat
deriving DecidableEq, Repr

/-- Summary row for one record; `elif managed.stop_time:` is Python
truthiness, so a `0` stop time also yields no uptime. -/
def summarize (now : Nat) (m : ManagedProcess) : ProcSummary :=
  let uptime : Option Nat :=
    if m.status = .running then some (now - m.start_time)
    else
      match m.stop_time with
      | some t => if t = 0 then none else some (t - m.start_time)
      | none => none
  { name := m.name, command := m.command, args := m.args, cwd := m.cwd,
    pid := m.pid, status := m.status.value, exit_code := m.exit_code,
    start_time := m.start_time, uptime_seconds := uptime }

/-- `ProcessSupervisor.list_all`: summary info for every record, in registry
order. -/
def ProcessSupervisor.list_all (reg : Registry) (now : Nat) : List ProcSummary :=
  reg.map (fun p => summarize now p.2)

/-- The payload returned by `get_output`; absent dictionary keys are `none`. -/
structure OutputResult where
  name : String
  status : String
  pid : Option Nat
  stdout : Option (List Char) := none
  stdout_seq : Option Nat := none
  stderr : Option (List Char) := none
  stderr_seq : Option Nat := none
deriving DecidableEq, Repr

/-- `ProcessSupervisor.get_output`: read-only retrieval of buffered output.
The registry is threaded through unchanged, mirroring that the method
performs no writes. -/
def ProcessSupervisor.get_output (reg : Registry) (name stream : String)
    (tailChars : Nat) : Except (List Char) OutputResult × Registry :=
  match alistLookup reg name with
  | none => (.error (("No process named ").toList ++ name.toList), reg)
  | some managed =>
    let base : OutputResult :=
      { name := name, status := managed.status.value, pid := managed.pid }
    let r1 :=
      if stream = "stdout" ∨ stream = "all" then
        { base with
          stdout := some (managed.stdout_buf.tail tailChars)
          stdout_seq := some managed.stdout_buf.seq }
      else base
    let r2 :=
      if stream = "stderr" ∨ stream = "all" then
        { r1 with
          stderr := some (managed.stderr_buf.tail tailChars)
          stderr_seq := some managed.stderr_buf.seq }
      else r1
    (.ok r2, reg)

theorem alistLookup_alistInsert_self {β : Type} (l : List (String × β))
    (k : String) (v : β) : alistLookup (alistInsert l k v) k = some v := by
  induction l with
  | nil => simp [alistInsert, alistLookup]
  | cons p rest ih =>
    by_cases h : p.1 = k
    · simp [alistInsert, alistLookup, h]
    · simp [alistInsert, alistLookup, h, ih]

theorem alistLookup_mem {β : Type} (l : List (String × β)) (k : String)
    (v : β) (h : alistLookup l k = some v) : (k, v) ∈ l := by
  induction l with
  | nil => simp [alistLookup] at h
  | cons p rest ih =>
    rw [alistLookup] at h
    obtain ⟨a, b⟩ := p
    by_cases hk : a = k
    · rw [if_pos hk] at h
      injection h with h2
      subst hk
      subst h2
      exact List.mem_cons_self _ _
    · rw [if_neg hk] at h
      exact List.mem_cons_of_mem (a, b) (ih h)

theorem alistErase_of_lookup_none {β : Type} (l : List (String × β))
    (k : String) (h : alistLookup l k = none) : alistErase l k = l := by
  induction l with
  | nil => rfl
  | cons p rest ih =>
    rw [alistLookup] at h
    by_cases hk : p.1 = k
    · rw [if_pos hk] at h; cases h
    · rw [if_neg hk] at h
      rw [alistErase, if_neg hk, ih h]

/-- Claim C1: if a record named `name` exists with status `STARTING` or
`RUNNING`, `start` returns that record unchanged, spawns no OS process, and
leaves the registry (hence every field of the record) exactly as it was. -/
theorem claim_C1_start_idempotent (reg : Registry) (env : StartEnv)
    (nm cmd : String) (args : Option (List String)) (cwd : Option String)
    (eArg : Option (List (String × String))) (ex : ManagedProcess)
    (hlook : alistLookup reg nm = some ex)
    (hlive : ex.status = .running ∨ ex.status = .starting) :
    ProcessSupervisor.start reg env nm cmd args cwd eArg =
      { result := .ok ex, registry := reg, spawnCalled := false } := by
  unfold ProcessSupervisor.start
  simp only [hlook]
  rw [if_pos hlive]

/-- Bench environment for concrete `start` calls. -/
def envStart : StartEnv :=
  { getcwd := "/", isdir := fun _ => true, environ := [], now := 0,
    spawn := fun _ => .ok 43 }

/-- A record in `RUNNING` state. -/
def mpRunning : ManagedProcess :=
  { name := "svc", command := "cmd", args := [], cwd := "/", env := none,
    status := .running, pid := some 42, start_time := 0, process := some 42 }

/-- Witness for C1: re-starting a running "svc" returns it unchanged with no
spawn. -/
theorem claim_C1_start_idempotent_witness :
    ProcessSupervisor.start [("svc", mpRunning)] envStart "svc" "cmd"
        none none none =
      { result := .ok mpRunning, registry := [("svc", mpRunning)],
        spawnCalled := false } :=
  claim_C1_start_idempotent [("svc", mpRunning)] envStart "svc" "cmd"
    none none none mpRunning (by decide) (Or.inl rfl)

/-- Claim C4: the exit-waiter never overwrites a `STOPPING` record — the
record is returned untouched, so a concurrent `stop()` owns the terminal
transition; on any other live record it finalizes to `STOPPED` when the exit
code is 0 and `FAILED` otherwise, recording `exit_code` and `stop_time`. -/
theorem claim_C4_waiter_guard (m : ManagedProcess) (code : Int) (now : Nat) :
    (m.status = .stopping → waitForExit m code now = m) ∧
    (m.status ≠ .stopping → m.process.isSome = true →
      ((waitForExit m code now).status =
          (if code = 0 then ProcessStatus.stopped else ProcessStatus.failed) ∧
        (waitForExit m code now).exit_code = some code ∧
        (waitForExit m code now).stop_time = some now)) := by
  constructor
  · intro hs
    unfold waitForExit
    cases m.process with
    | none => rfl
    | some p => rw [if_pos hs]
  · intro hs hp
    unfold waitForExit
    cases hpp : m.process with
    | none => rw [hpp] at hp; simp at hp
    | some p => rw [if_neg hs]; exact ⟨rfl, rfl, rfl⟩

/-- A record in `STOPPING` state. -/
def mpStopping : ManagedProcess :=
  { name := "svc", command := "cmd", args := [], cwd := "/", env := none,
    status := .stopping, pid := some 42, start_time := 0, process := some 42 }

/-- Witness for C4: a stopping record is untouched; a running record with
exit code 0 finalizes to `STOPPED`. -/
theorem claim_C4_waiter_guard_witness :
    waitForExit mpStopping 0 7 = mpStopping ∧
    (waitForExit mpRunning 0 7).status = ProcessStatus.stopped :=
  ⟨(claim_C4_waiter_guard mpStopping 0 7).1 rfl,
   by
     have h := (claim_C4_waiter_guard mpRunning 0 7).2 (by decide) rfl
     simpa using h.1⟩

/-- Claim C8: for a known name and stream selector in
`stdout`/`stderr`/`all`, `get_output` returns the requested buffer(s)
trimmed to their last `tail` characters plus each buffer's `seq`, together
with current status and pid, and mutates nothing — the registry (hence the
record and both ring buffers) is returned unchanged. -/
theorem claim_C8_get_output_pure (reg : Registry) (nm stream : String)
    (tailN : Nat) (m : ManagedProcess)
    (hlook : alistLookup reg nm = some m)
    (hstream : stream = "stdout" ∨ stream = "stderr" ∨ stream = "all") :
    ∃ res : OutputResult,
      ProcessSupervisor.get_output reg nm stream tailN = (.ok res, reg) ∧
      res.name = nm ∧ res.status = m.status.value ∧ res.pid = m.pid ∧
      ((stream = "stdout" ∨ stream = "all") →
        res.stdout = some (m.stdout_buf.tail tailN) ∧
        res.stdout_seq = some m.stdout_buf.seq) ∧
      ((stream = "stderr" ∨ stream = "all") →
        res.stderr = some (m.stderr_buf.tail tailN) ∧
        res.stderr_seq = some m.stderr_buf.seq) ∧
      (stream = "stdout" → res.stderr = none ∧ res.stderr_seq = none) ∧
      (stream = "stderr" → res.stdout = none ∧ res.stdout_seq = none) := by
  rcases hstream with h | h | h <;> subst h
  · refine
      ⟨{ name := nm
         status := m.status.value
         pid := m.pid
         stdout := some (m.stdout_buf.tail tailN)
         stdout_seq := some m.stdout_buf.seq },
       ?_, rfl, rfl, rfl, fun _ => ⟨rfl, rfl⟩,
       fun hc => absurd hc (by decide), fun _ => ⟨rfl, rfl⟩,
       fun hc => absurd hc (by decide)⟩
    unfold ProcessSupervisor.get_output
    simp only [hlook]
    rfl
  · refine
      ⟨{ name := nm
         status := m.status.value
         pid := m.pid
         stderr := some (m.stderr_buf.tail tailN)
         stderr_seq := some m.stderr_buf.seq },
       ?_, rfl, rfl, rfl, fun hc => absurd hc (by decide),
       fun _ => ⟨rfl, rfl⟩, fun hc => absurd hc (by decide),
       fun _ => ⟨rfl, rfl⟩⟩
    unfold ProcessSupervisor.get_output
    simp only [hlook]
    rfl
  · refine
      ⟨{ name := nm
         status := m.status.value
         pid := m.pid
         stdout := some (m.stdout_buf.tail tailN)
         stdout_seq := some m.stdout_buf.seq
         stderr := some (m.stderr_buf.tail tailN)
         stderr_seq := some m.stderr_buf.seq },
       ?_, rfl, rfl, rfl, fun _ => ⟨rfl, rfl⟩, fun _ => ⟨rfl, rfl⟩,
       fun hc => absurd hc (by decide), fun hc => absurd hc (by decide)⟩
    unfold ProcessSupervisor.get_output
    simp only [hlook]
    rfl

/-- Witness for C8 at stream `all` on a concrete registry. -/
theorem claim_C8_get_output_pure_witness :
    ∃ res : OutputResult,
      ProcessSupervisor.get_output [("svc", mpRunning)] "svc" "all" 2000 =
        (.ok res, [("svc", mpRunning)]) ∧
      res.name = "svc" ∧ res.status = mpRunning.status.value ∧
      res.pid = mpRunning.pid ∧
      ((("all" : String) = "stdout" ∨ ("all" : String) = "all") →
        res.stdout = some (mpRunning.stdout_buf.tail 2000) ∧
        res.stdout_seq = some mpRunning.stdout_buf.seq) ∧
      ((("all" : String) = "stderr" ∨ ("all" : String) = "all") →
        res.stderr = some (mpRunning.stderr_buf.tail 2000) ∧
        res.stderr_seq = some mpRunning.stderr_buf.seq) ∧
      (("all" : String) = "stdout" → res.stderr = none ∧ res.stderr_seq = none) ∧
      (("all" : String) = "stderr" → res.stdout = none ∧ res.stdout_seq = none) :=
  claim_C8_get_output_pure [("svc", mpRunning)] "svc" "all" 2000 mpRunning
    (by decide) (Or.inr (Or.inr rfl))

/-- Claim C10: for a known name, a stream selector outside
`stdout`/`stderr`/`all` does not fail: the call returns only name, status
and pid, with no output or seq fields and no error. -/
theorem claim_C10_unknown_stream (reg : Registry) (nm stream : String)
    (tailN : Nat) (m : ManagedProcess)
    (hlook : alistLookup reg nm = some m)
    (h1 : stream ≠ "stdout") (h2 : stream ≠ "stderr") (h3 : stream ≠ "all") :
    ProcessSupervisor.get_output reg nm stream tailN =
      (.ok { name := nm, status := m.status.value, pid := m.pid }, reg) := by
  unfold ProcessSupervisor.get_output
  simp only [hlook]
  rw [if_neg (not_or.mpr ⟨h1, h3⟩), if_neg (not_or.mpr ⟨h2, h3⟩)]

/-- Witness for C10 at the unknown selector "nope". -/
theorem claim_C10_unknown_stream_witness :
    ProcessSupervisor.get_output [("svc", mpRunning)] "svc" "nope" 2000 =
      (.ok { name := "svc"
             status := mpRunning.status.value
             pid := mpRunning.pid }, [("svc", mpRunning)]) :=
  claim_C10_unknown_stream [("svc", mpRunning)] "svc" "nope" 2000 mpRunning
    (by decide) (by decide) (by decide) (by decide)

theorem start_of_absent (reg : Registry) (env : StartEnv) (nm cmd : String)
    (args : Option (List String)) (cwd : Option String)
    (eArg : Option (List (String × String)))
    (hlook : alistLookup reg nm = none) :
    ProcessSupervisor.start reg env nm cmd args cwd eArg =
      startSpawn reg env nm cmd args cwd eArg := by
  unfold ProcessSupervisor.start
  simp only [hlook]

theorem start_of_dead (reg : Registry) (env : StartEnv) (nm cmd : String)
    (args : Option (List String)) (cwd : Option String)
    (eArg : Option (List (String × String))) (r : ManagedProcess)
    (hlook : alistLookup reg nm = some r)
    (hdead : ¬(r.status = .running ∨ r.status = .starting)) :
    ProcessSupervisor.start reg env nm cmd args cwd eArg =
      startSpawn (alistErase reg nm) env nm cmd args cwd eArg := by
  unfold ProcessSupervisor.start
  simp only [hlook]
  rw [if_neg hdead]

/-- A dead (`STOPPED`) record left over from an earlier run. -/
def mpStopped : ManagedProcess :=
  { name := "svc", command := "cmd", args := [], cwd := "/", env := none,
    status := .stopped, pid := some 42, exit_code := some 0, start_time := 0,
    stop_time := some 1, process := some 42 }

/-- Environment whose working-directory check always fails. -/
def envBadCwd : StartEnv :=
  { getcwd := "/", isdir := fun _ => false, environ := [], now := 0,
    spawn := fun _ => .ok 43 }

/-- Counterexample to C6 as stated: with a pre-existing `STOPPED` record
under the name and a bad working directory, `start` raises the
invalid-argument error before any spawn, but the registry is NOT exactly as
it was — the dead record was already deleted. -/
theorem claim_C6_counterexample :
    (ProcessSupervisor.start [("svc", mpStopped)] envBadCwd "svc" "cmd"
        none none none).result =
      .error (.valueError
        (("Working directory does not exist: /").toList)) ∧
    (ProcessSupervisor.start [("svc", mpStopped)] envBadCwd "svc" "cmd"
        none none none).spawnCalled = false ∧
    (ProcessSupervisor.start [("svc", mpStopped)] envBadCwd "svc" "cmd"
        none none none).registry ≠ [("svc", mpStopped)] := by
  decide

/-- Claim C6 (amended): when the resolved working directory is not a
directory, `start` fails with the invalid-argument error before any spawn and
adds no record; the registry at raise time is the original with any
pre-existing (necessarily dead) record under the name already discarded. -/
theorem claim_C6_amended (reg : Registry) (env : StartEnv) (nm cmd : String)
    (args : Option (List String)) (cwd : Option String)
    (eArg : Option (List (String × String)))
    (hdead : ∀ r, alistLookup reg nm = some r →
      ¬(r.status = .running ∨ r.status = .starting))
    (hbad : env.isdir (resolveCwd env cwd) = false) :
    (ProcessSupervisor.start reg env nm cmd args cwd eArg).result =
      .error (.valueError
        (("Working directory does not exist: " ++ resolveCwd env cwd).toList)) ∧
    (ProcessSupervisor.start reg env nm cmd args cwd eArg).spawnCalled = false ∧
    (ProcessSupervisor.start reg env nm cmd args cwd eArg).registry =
      alistErase reg nm := by
  cases hlook : alistLookup reg nm with
  | none =>
    rw [start_of_absent reg env nm cmd args cwd eArg hlook,
      alistErase_of_lookup_none reg nm hlook]
    unfold startSpawn
    rw [if_pos (by simp [hbad])]
    exact ⟨rfl, rfl, rfl⟩
  | some r =>
    rw [start_of_dead reg env nm cmd args cwd eArg r hlook (hdead r hlook)]
    unfold startSpawn
    rw [if_pos (by simp [hbad])]
    exact ⟨rfl, rfl, rfl⟩

/-- Witness for the amended C6 at a concrete dead record and bad directory. -/
theorem claim_C6_amended_witness :
    (ProcessSupervisor.start [("svc", mpStopped)] envBadCwd "svc" "cmd"
        none none none).result =
      .error (.valueError
        (("Working directory does not exist: " ++
          resolveCwd envBadCwd none).toList)) ∧
    (ProcessSupervisor.start [("svc", mpStopped)] envBadCwd "svc" "cmd"
        none none none).spawnCalled = false ∧
    (ProcessSupervisor.start [("svc", mpStopped)] envBadCwd "svc" "cmd"
        none none none).registry = alistErase [("svc", mpStopped)] "svc" :=
  claim_C6_amended [("svc", mpStopped)] envBadCwd "svc" "cmd" none none none
    (by intro r hr; simp [alistLookup] at hr; subst hr; decide) rfl

/-- Environment whose spawn attempt raises. -/
def envSpawnFail : StartEnv :=
  { getcwd := "/", isdir := fun _ => true, environ := [], now := 0,
    spawn := fun _ => .error (("boom").toList) }

/-- Claim C7: when the spawn attempt itself fails, the record's status
becomes `FAILED`, the failure text is appended to its stderr buffer, the
error propagates to the caller, and the record remains in the registry,
visible in `list_all`. -/
theorem claim_C7_spawn_failure (reg : Registry) (env : StartEnv)
    (nm cmd : String) (args : Option (List String)) (cwd : Option String)
    (eArg : Option (List (String × String))) (msg : List Char) (now2 : Nat)
    (hdead : ∀ r, alistLookup reg nm = some r →
      ¬(r.status = .running ∨ r.status = .starting))
    (hcwd : env.isdir (resolveCwd env cwd) = true)
    (hspawn : env.spawn (mergeEnv env.environ eArg) = .error msg) :
    (ProcessSupervisor.start reg env nm cmd args cwd eArg).result =
      .error (.spawnFailed msg) ∧
    ∃ fr : ManagedProcess,
      alistLookup (ProcessSupervisor.start reg env nm cmd args cwd eArg).registry
          nm = some fr ∧
      fr.status = .failed ∧
      fr.stderr_buf = ({} : RingBuffer).append
        (("Failed to start: ").toList ++ msg ++ ("\n").toList) ∧
      summarize now2 fr ∈
        ProcessSupervisor.list_all
          (ProcessSupervisor.start reg env nm cmd args cwd eArg).registry now2 ∧
      (summarize now2 fr).status = "failed" := by
  cases hlook : alistLookup reg nm with
  | none =>
    rw [start_of_absent reg env nm cmd args cwd eArg hlook]
    simp only [startSpawn, hspawn]
    rw [if_neg (by simp [hcwd])]
    refine ⟨rfl, _, alistLookup_alistInsert_self _ _ _, rfl, rfl, ?_, rfl⟩
    simp only [ProcessSupervisor.list_all]
    exact List.mem_map_of_mem _
      (alistLookup_mem _ _ _ (alistLookup_alistInsert_self _ _ _))
  | some r =>
    rw [start_of_dead reg env nm cmd args cwd eArg r hlook (hdead r hlook)]
    simp only [startSpawn, hspawn]
    rw [if_neg (by simp [hcwd])]
    refine ⟨rfl, _, alistLookup_alistInsert_self _ _ _, rfl, rfl, ?_, rfl⟩
    simp only [ProcessSupervisor.list_all]
    exact List.mem_map_of_mem _
      (alistLookup_mem _ _ _ (alistLookup_alistInsert_self _ _ _))

/-- Witness for C7 on an empty registry with a failing spawn. -/
theorem claim_C7_spawn_failure_witness :
    (ProcessSupervisor.start [] envSpawnFail "svc" "cmd" none none none).result =
      .error (.spawnFailed (("boom").toList)) ∧
    ∃ fr : ManagedProcess,
      alistLookup (ProcessSupervisor.start [] envSpawnFail "svc" "cmd"
          none none none).registry "svc" = some fr ∧
      fr.status = .failed ∧
      fr.stderr_buf = ({} : RingBuffer).append
        (("Failed to start: ").toList ++ ("boom").toList ++ ("\n").toList) ∧
      summarize 5 fr ∈
        ProcessSupervisor.list_all
          (ProcessSupervisor.start [] envSpawnFail "svc" "cmd"
            none none none).registry 5 ∧
      (summarize 5 fr).status = "failed" :=
  claim_C7_spawn_failure [] envSpawnFail "svc" "cmd" none none none
    (("boom").toList) 5 (by intro r hr; simp [alistLookup] at hr) rfl rfl

/-- A `RUNNING` record whose process handle is absent (`_process is None`). -/
def mpRunNoHandle : ManagedProcess :=
  { name := "svc", command := "cmd", args := [], cwd := "/", env := none,
    status := .running, pid := none, start_time := 0 }

/-- Bench environment for concrete `stop` calls: process group found, signal
delivered, graceful exit, exit code 0 observed. -/
def envStop : StopEnv :=
  { pgid := some 42, killpgOk := true, termExits := true,
    returncode := some 0, now := 9 }

/-- Counterexample to C5 as stated: stopping a `RUNNING` record whose process
handle is `None` returns with status `STOPPED`, but neither `exit_code` nor
`stop_time` is recorded — they remain `None`. -/
theorem claim_C5_counterexample :
    (ProcessSupervisor.stop [("svc", mpRunNoHandle)] envStop "svc" false).result =
      .ok { mpRunNoHandle with status := .stopped } ∧
    ({ mpRunNoHandle with status := ProcessStatus.stopped }).exit_code = none ∧
    ({ mpRunNoHandle with status := ProcessStatus.stopped }).stop_time = none := by
  decide

/-- Claim C5 (amended): stopping a `RUNNING`/`STARTING` record always ends
with status `STOPPED`, on every path including `force` and the
already-exited ones; `exit_code` (set to the handle's `returncode`, which
the handle may still report as `None`) and `stop_time` are recorded exactly
on the path where the process handle exists, the process group was found,
and the first signal was delivered. -/
theorem claim_C5_amended (reg : Registry) (env : StopEnv) (nm : String)
    (force : Bool) (m : ManagedProcess)
    (hlook : alistLookup reg nm = some m)
    (hlive : m.status = .running ∨ m.status = .starting) :
    ∃ m2 : ManagedProcess,
      (ProcessSupervisor.stop reg env nm force).result = .ok m2 ∧
      m2.status = .stopped ∧
      (m.process.isSome = true → env.pgid.isSome = true →
        env.killpgOk = true →
        m2.exit_code = env.returncode ∧ m2.stop_time = some env.now) ∧
      (m.process = none ∨ env.pgid = none ∨ env.killpgOk = false →
        m2.exit_code = m.exit_code ∧ m2.stop_time = m.stop_time) := by
  unfold ProcessSupervisor.stop
  simp only [hlook]
  rw [if_neg (not_not_intro hlive)]
  cases hp : m.process with
  | none =>
    exact ⟨_, rfl, rfl, fun hps _ _ => by simp at hps, fun _ => ⟨rfl, rfl⟩⟩
  | some p =>
    cases hg : env.pgid with
    | none =>
      exact ⟨_, rfl, rfl, fun _ hgs _ => by simp at hgs, fun _ => ⟨rfl, rfl⟩⟩
    | some g =>
      cases hk : env.killpgOk with
      | false =>
        exact ⟨_, rfl, rfl, fun _ _ hks => by simp at hks, fun _ => ⟨rfl, rfl⟩⟩
      | true =>
        exact ⟨_, rfl, rfl, fun _ _ _ => ⟨rfl, rfl⟩,
          fun hd => by rcases hd with h | h | h <;> simp at h⟩

/-- Witness for the amended C5 on the full SIGTERM path. -/
theorem claim_C5_amended_witness :
    ∃ m2 : ManagedProcess,
      (ProcessSupervisor.stop [("svc", mpRunning)] envStop "svc" false).result =
        .ok m2 ∧
      m2.status = .stopped ∧
      (mpRunning.process.isSome = true → envStop.pgid.isSome = true →
        envStop.killpgOk = true →
        m2.exit_code = envStop.returncode ∧ m2.stop_time = some envStop.now) ∧
      (mpRunning.process = none ∨ envStop.pgid = none ∨
          envStop.killpgOk = false →
        m2.exit_code = mpRunning.exit_code ∧
        m2.stop_time = mpRunning.stop_time) :=
  claim_C5_amended [("svc", mpRunning)] envStop "svc" false mpRunning
    (by decide) (Or.inl rfl)

end JakeBot
